import Mathlib

set_option maxRecDepth 8000

/-!
Verification of the video-to-srt pipeline (src/transcribe.py).

Conventions of the shallow embedding: Python floats are modelled as exact
rationals, Python ints as integers, and the fallible external calls
(ffmpeg, ffprobe, the remote transcription service) as oracle fields of an
environment record.  Filesystem effects that the claims mention are
tracked in an explicit state record.  The chunk-splitting loop, whose
termination is one of the claims, carries explicit fuel and returns
an optional result, with none meaning divergence.
-/

namespace VideoToSrt

/-- Python builtin round, exact over rationals: round half to even
(documented behaviour of Python 3 round on floats). -/
def pyRound (q : ℚ) : ℤ :=
  if Int.fract q < 1/2 then ⌊q⌋
  else if Int.fract q = 1/2 then (if ⌊q⌋ % 2 = 0 then ⌊q⌋ else ⌊q⌋ + 1)
  else ⌊q⌋ + 1

/-- Python int(...) applied to a float: truncation toward zero. -/
def pyInt (q : ℚ) : ℤ := if q < 0 then ⌈q⌉ else ⌊q⌋

/-- Python float modulo: a % b = a - b * floor(a / b), sign follows b. -/
def pymod (a b : ℚ) : ℚ := a - b * ⌊a / b⌋

/-- Python float floor division a // b. -/
def pyFloorDiv (a b : ℚ) : ℚ := (⌊a / b⌋ : ℚ)

/-- Decimal digits of a natural number, zero padded to a minimum width. -/
def natZfill (w : ℕ) (n : ℕ) : String :=
  String.mk (List.replicate (w - (Nat.repr n).length) '0') ++ Nat.repr n

/-- Zero-padded decimal rendering of an integer, as Python width-w int
formatting, the sign counting toward the width. -/
def zfill (w : ℕ) (n : ℤ) : String :=
  if n < 0 then "-" ++ natZfill (w - 1) n.natAbs else natZfill w n.toNat

/-- The milliseconds field of format_timestamp, src/transcribe.py line 27:
int(round((seconds - math.floor(seconds)) * 1000)).  Python round on a
float returns an int, so the outer int(...) is the identity. -/
def millisOf (seconds : ℚ) : ℤ := pyRound ((seconds - (⌊seconds⌋ : ℚ)) * 1000)

/-- format_timestamp, src/transcribe.py lines 22-28.  The source computes
hours = int(seconds // 3600), minutes = int((seconds % 3600) // 60),
secs = int(seconds % 60), millis as in millisOf, and renders them
zero padded to widths 2, 2, 2 and 3. -/
def format_timestamp (seconds : ℚ) : String :=
  zfill 2 (pyInt (pyFloorDiv seconds 3600)) ++ ":" ++
  zfill 2 (pyInt (pyFloorDiv (pymod seconds 3600) 60)) ++ ":" ++
  zfill 2 (pyInt (pymod seconds 60)) ++ "," ++
  zfill 3 (millisOf seconds)

/-- Claim C1, counterexample: the spec asserts round-half-up, so an input of
exactly half a millisecond (0.0005 s) would have to format as 00:00:00,001;
the code (Python round, which is round half to even) formats it as
00:00:00,000. -/
theorem format_timestamp_not_half_up :
    format_timestamp (1/2000 : ℚ) = "00:00:00,000" ∧
    format_timestamp (1/2000 : ℚ) ≠ "00:00:00,001" := by
  with_unfolding_all decide

/-- Claim C1, amended: the two reference values of the spec hold, and the
fractional milliseconds are rounded half-to-even (Python round): a fractional
part of exactly half a millisecond rounds to the even neighbour, not always
upward. -/
theorem format_timestamp_values_half_even :
    format_timestamp 0 = "00:00:00,000" ∧
    format_timestamp (3725.4 : ℚ) = "01:02:05,400" ∧
    ∀ (q : ℚ) (k : ℤ), 0 ≤ q → (q - (⌊q⌋ : ℚ)) * 1000 = (k : ℚ) + 1/2 →
      millisOf q = (if k % 2 = 0 then k else k + 1) := by
  refine ⟨by with_unfolding_all decide, by with_unfolding_all decide, ?_⟩
  intro q k hq hfrac
  have hfl : ⌊(k : ℚ) + 1/2⌋ = k := by
    rw [add_comm, Int.floor_add_int]
    norm_num
  have hfr : Int.fract ((k : ℚ) + 1/2) = 1/2 := by
    rw [Int.fract, hfl]
    ring
  unfold millisOf pyRound
  rw [hfrac, hfr, hfl]
  norm_num

/-- Witness for the amended claim C1 at concrete half-millisecond inputs:
0.0005 s has fractional-millisecond part 0 + 1/2 and rounds to 0 (even),
while 0.0015 s has fractional-millisecond part 1 + 1/2 and rounds to 2. -/
theorem format_timestamp_values_half_even_witness :
    millisOf (1/2000 : ℚ) = 0 ∧ millisOf (3/2000 : ℚ) = 2 := by
  constructor
  · have h := format_timestamp_values_half_even.2.2 (1/2000) 0
      (by norm_num) (by with_unfolding_all decide)
    norm_num at h
    exact h
  · have h := format_timestamp_values_half_even.2.2 (3/2000) 1
      (by norm_num) (by with_unfolding_all decide)
    norm_num at h
    exact h

/-- Claim C9, code evaluated at the failing input: at seconds = 0.9999 the
millisecond computation int(round(0.9999 * 1000)) yields 1000, so the
formatted string has a four-digit millisecond field instead of a three-digit
field below 1000 (and no carry into the seconds field happens). -/
theorem format_timestamp_millis_overflow :
    format_timestamp (9999/10000 : ℚ) = "00:00:00,1000" := by
  with_unfolding_all decide

/-! ## The chunk splitter, src/transcribe.py lines 60-84 -/

/-- Chunk file name: chunk_ followed by the index zero padded to width 4
and the extension, as in the f-string on line 69. -/
def chunkName (idx : ℕ) : String := "chunk_" ++ natZfill 4 idx ++ ".mp3"

/-- The while loop of split_audio (lines 68-81), with explicit fuel: the
start cursor and the chunk duration are Python ints, the probed total
duration D is a float.  encodeOk models the outcome of the per-chunk ffmpeg
re-encode subprocess call (line 70, check=True): a false value raises
CalledProcessError, ending the loop before the chunk is appended.  A none
result means the fuel ran out, i.e. the loop did not terminate within it. -/
def splitGo (encodeOk : ℕ → Bool) (C : ℤ) (D : ℚ) :
    ℕ → ℤ → ℕ → List (String × ℤ) → Option (Except Unit (List (String × ℤ)))
  | 0, _, _, _ => none
  | fuel + 1, start, idx, acc =>
    if (start : ℚ) < D then
      if encodeOk idx then
        splitGo encodeOk C D fuel (start + C) (idx + 1) (acc ++ [(chunkName idx, start)])
      else some (Except.error ())
    else some (Except.ok acc)

/-- split_audio (lines 60-84): runs the splitting loop from start = 0,
idx = 0 with an empty chunk list. -/
def split_audio (encodeOk : ℕ → Bool) (D : ℚ) (chunk_duration : ℤ) (fuel : ℕ) :
    Option (Except Unit (List (String × ℤ))) :=
  splitGo encodeOk chunk_duration D fuel 0 0 []

/-- The number of loop iterations of split_audio: the ceiling of D / C. -/
def numChunks (D : ℚ) (C : ℤ) : ℕ := (⌈D / (C : ℚ)⌉).toNat

lemma splitGo_cond (C : ℤ) (hC : 1 ≤ C) (D : ℚ) (i : ℕ) :
    (((i : ℤ) * C : ℤ) : ℚ) < D ↔ i < numChunks D C := by
  have hC0 : (0 : ℚ) < (C : ℚ) := by exact_mod_cast lt_of_lt_of_le zero_lt_one hC
  have hcast : (((i : ℤ) * C : ℤ) : ℚ) = ((i : ℤ) : ℚ) * (C : ℚ) := by push_cast; ring
  rw [numChunks, hcast, ← lt_div_iff₀ hC0, ← Int.lt_ceil, Int.lt_toNat]

lemma splitGo_run (encodeOk : ℕ → Bool) (hok : ∀ i, encodeOk i = true)
    (C : ℤ) (hC : 1 ≤ C) (D : ℚ) :
    ∀ fuel i acc, numChunks D C - i < fuel →
      splitGo encodeOk C D fuel ((i : ℤ) * C) i acc =
        some (Except.ok (acc ++ (List.range (numChunks D C - i)).map
          (fun j => (chunkName (i + j), ((i + j : ℕ) : ℤ) * C)))) := by
  intro fuel
  induction fuel with
  | zero => intro i acc h; exact absurd h (Nat.not_lt_zero _)
  | succ fuel ih =>
    intro i acc h
    by_cases hlt : (((i : ℤ) * C : ℤ) : ℚ) < D
    · have hi : i < numChunks D C := (splitGo_cond C hC D i).mp hlt
      have hstart : (i : ℤ) * C + C = ((i + 1 : ℕ) : ℤ) * C := by push_cast; ring
      rw [splitGo, if_pos hlt, if_pos (hok i), hstart,
        ih (i + 1) (acc ++ [(chunkName i, (i : ℤ) * C)]) (by omega)]
      have hsub : numChunks D C - i = (numChunks D C - (i + 1)) + 1 := by omega
      rw [hsub, List.range_succ_eq_map, List.map_cons, List.map_map]
      have hfun : ∀ j ∈ List.range (numChunks D C - (i + 1)),
          ((fun j => (chunkName (i + j), ((i + j : ℕ) : ℤ) * C)) ∘ Nat.succ) j =
            (chunkName (i + 1 + j), ((i + 1 + j : ℕ) : ℤ) * C) := by
        intro j _
        have : i + Nat.succ j = i + 1 + j := by omega
        simp only [Function.comp_apply, this]
      rw [List.map_congr_left hfun]
      simp [List.append_assoc]
    · have hi : ¬ i < numChunks D C := fun hi => hlt ((splitGo_cond C hC D i).mpr hi)
      have hz : numChunks D C - i = 0 := by omega
      rw [splitGo, if_neg hlt, hz]
      simp

/-- Claim C2: with every per-chunk encode call succeeding, a positive total
duration D and an integer chunk duration C at least 1, split_audio
terminates and produces chunks whose start offsets are exactly the
arithmetic progression 0, C, 2C, ..., strictly increasing, every offset
(in particular the last) strictly below D, and the number of chunks equals
the ceiling of D / C. -/
theorem split_audio_coverage (D : ℚ) (C : ℤ) (hD : 0 < D) (hC : 1 ≤ C)
    (encodeOk : ℕ → Bool) (hok : ∀ i, encodeOk i = true) :
    ∃ chunks : List (String × ℤ),
      split_audio encodeOk D C (numChunks D C + 1) = some (Except.ok chunks) ∧
      chunks.map Prod.snd = (List.range chunks.length).map (fun k : ℕ => (k : ℤ) * C) ∧
      (chunks.map Prod.snd).Pairwise (· < ·) ∧
      (∀ o ∈ chunks.map Prod.snd, (o : ℚ) < D) ∧
      (chunks.length : ℤ) = ⌈D / (C : ℚ)⌉ := by
  have hC0 : (0 : ℤ) < C := lt_of_lt_of_le zero_lt_one hC
  have hrun := splitGo_run encodeOk hok C hC D (numChunks D C + 1) 0 [] (by omega)
  refine ⟨(List.range (numChunks D C)).map (fun j => (chunkName j, (j : ℤ) * C)),
    ?_, ?_, ?_, ?_, ?_⟩
  · rw [split_audio]
    simpa using hrun
  · rw [List.length_map, List.length_range, List.map_map]
    rfl
  · rw [List.map_map]
    rw [List.pairwise_map]
    refine (List.pairwise_lt_range _).imp ?_
    intro a b hab
    have : (a : ℤ) < b := by exact_mod_cast hab
    exact mul_lt_mul_of_pos_right this hC0
  · intro o ho
    simp only [List.map_map, List.mem_map, List.mem_range] at ho
    obtain ⟨j, hj, rfl⟩ := ho
    exact (splitGo_cond C hC D j).mpr hj
  · have hpos : (0 : ℤ) < ⌈D / (C : ℚ)⌉ := by
      rw [Int.ceil_pos]
      exact div_pos hD (by exact_mod_cast hC0)
    simp only [List.length_map, List.length_range, numChunks]
    exact Int.toNat_of_nonneg (le_of_lt hpos)

/-- Witness for claim C2 at D = 5 seconds and C = 2 seconds. -/
theorem split_audio_coverage_witness :
    ∃ chunks : List (String × ℤ),
      split_audio (fun _ => true) 5 2 (numChunks 5 2 + 1) = some (Except.ok chunks) ∧
      chunks.map Prod.snd = (List.range chunks.length).map (fun k : ℕ => (k : ℤ) * 2) ∧
      (chunks.map Prod.snd).Pairwise (· < ·) ∧
      (∀ o ∈ chunks.map Prod.snd, (o : ℚ) < 5) ∧
      (chunks.length : ℤ) = ⌈(5 : ℚ) / ((2 : ℤ) : ℚ)⌉ :=
  split_audio_coverage 5 2 (by norm_num) (by norm_num) (fun _ => true) (fun _ => rfl)

lemma splitGo_total (encodeOk : ℕ → Bool) (C : ℤ) (hC : 1 ≤ C) (D : ℚ) :
    ∀ fuel i acc, numChunks D C - i < fuel →
      ∃ r, splitGo encodeOk C D fuel ((i : ℤ) * C) i acc = some r := by
  intro fuel
  induction fuel with
  | zero => intro i acc h; exact absurd h (Nat.not_lt_zero _)
  | succ fuel ih =>
    intro i acc h
    by_cases hlt : (((i : ℤ) * C : ℤ) : ℚ) < D
    · by_cases hokk : encodeOk i = true
      · have hi : i < numChunks D C := (splitGo_cond C hC D i).mp hlt
        have hstart : (i : ℤ) * C + C = ((i + 1 : ℕ) : ℤ) * C := by push_cast; ring
        obtain ⟨r, hr⟩ := ih (i + 1) (acc ++ [(chunkName i, (i : ℤ) * C)]) (by omega)
        exact ⟨r, by rw [splitGo, if_pos hlt, if_pos hokk, hstart, hr]⟩
      · exact ⟨Except.error (), by rw [splitGo, if_pos hlt, if_neg hokk]⟩
    · exact ⟨Except.ok acc, by rw [splitGo, if_neg hlt]⟩

lemma splitGo_zero_none (encodeOk : ℕ → Bool) (D : ℚ) (hD : 0 < D)
    (hok : ∀ i, encodeOk i = true) :
    ∀ fuel i acc, splitGo encodeOk 0 D fuel 0 i acc = none := by
  intro fuel
  induction fuel with
  | zero => intro i acc; rfl
  | succ fuel ih =>
    intro i acc
    have hlt : ((0 : ℤ) : ℚ) < D := by exact_mod_cast hD
    rw [splitGo, if_pos hlt, if_pos (hok i), add_zero]
    exact ih (i + 1) _

/-- Claim C10: for every integer chunk duration at least 1 the splitting
loop terminates (the start cursor grows by the chunk duration each
iteration until it reaches the total duration, whatever the encode
outcomes), and the lower bound is a genuine hypothesis: the code has no
guard against a computed chunk duration of 0, and with chunk duration 0,
a positive total duration and succeeding encodes the loop runs forever
(no fuel suffices). -/
theorem split_loop_termination (D : ℚ) (C : ℤ) (encodeOk : ℕ → Bool) :
    (1 ≤ C → ∃ fuel r, split_audio encodeOk D C fuel = some r) ∧
    (C = 0 → 0 < D → (∀ i, encodeOk i = true) →
      ∀ fuel, split_audio encodeOk D C fuel = none) := by
  constructor
  · intro hC
    obtain ⟨r, hr⟩ := splitGo_total encodeOk C hC D (numChunks D C + 1) 0 [] (by omega)
    refine ⟨numChunks D C + 1, r, ?_⟩
    rw [split_audio]
    simpa using hr
  · intro hC0 hD hok fuel
    subst hC0
    exact splitGo_zero_none encodeOk D hD hok fuel 0 []

/-- Witness for claim C10: termination at D = 1, C = 1; divergence of the
unguarded C = 0 case at D = 1 for fuel 5. -/
theorem split_loop_termination_witness :
    (∃ fuel r, split_audio (fun _ => true) 1 1 fuel = some r) ∧
    split_audio (fun _ => true) 1 0 5 = none := by
  constructor
  · exact (split_loop_termination 1 1 (fun _ => true)).1 (by norm_num)
  · exact (split_loop_termination 1 0 (fun _ => true)).2 rfl (by norm_num) (fun _ => rfl) 5

/-! ## Segments and offset correction, src/transcribe.py lines 143-151 -/

/-- A transcription segment: start and end times in seconds and the text.
The field named end in the source is called stop here, end being a reserved
word in Lean. -/
structure Segment where
  start : ℚ
  stop : ℚ
  text : String
deriving DecidableEq

/-- The in-place shift of one raw segment by its chunk offset
(lines 148-150). -/
def shiftSegment (offset : ℚ) (seg : Segment) : Segment :=
  { seg with start := seg.start + offset, stop := seg.stop + offset }

/-- The accumulation loop of lines 143-151, given the raw segments of each
chunk paired with the chunk offset: shifts every segment of a chunk by the
chunk offset, then extends the global list, in chunk order. -/
def collectGo : List (ℚ × List Segment) → List Segment → List Segment
  | [], acc => acc
  | (off, segs) :: rest, acc => collectGo rest (acc ++ segs.map (shiftSegment off))

/-- The global segment list accumulated from all chunks, starting empty. -/
def collectSegments (chunks : List (ℚ × List Segment)) : List Segment :=
  collectGo chunks []

lemma collectGo_eq (chunks : List (ℚ × List Segment)) :
    ∀ acc, collectGo chunks acc =
      acc ++ (chunks.map (fun p => p.2.map (shiftSegment p.1))).flatten := by
  induction chunks with
  | nil => intro acc; simp [collectGo]
  | cons p rest ih =>
    intro acc
    obtain ⟨off, segs⟩ := p
    rw [collectGo, ih]
    simp [List.append_assoc]

/-- Claim C3: the assembler turns a raw segment with times s, e of a chunk
with offset O into the corrected segment with times s + O, e + O; the
global list is the concatenation of the per-chunk corrected lists in chunk
order; and when chunks are processed in ascending offset order (consecutive
offsets at least one chunk duration C apart) and every raw segment of a
chunk lies within the chunk duration, the accumulated global list is sorted
ascending by start across chunk boundaries: every corrected segment of an
earlier chunk starts no later than every corrected segment of a later
chunk. -/
theorem offset_correction_sorted (chunks : List (ℚ × List Segment)) (C : ℚ)
    (hC : 0 ≤ C)
    (hasc : List.Chain' (fun p q => p.1 + C ≤ q.1) chunks)
    (hin : ∀ p ∈ chunks, ∀ s ∈ p.2, 0 ≤ s.start ∧ s.start ≤ s.stop ∧ s.stop ≤ C) :
    (∀ (O s e : ℚ) (t : String),
      shiftSegment O { start := s, stop := e, text := t } =
        { start := s + O, stop := e + O, text := t }) ∧
    collectSegments chunks = (chunks.map (fun p => p.2.map (shiftSegment p.1))).flatten ∧
    List.Pairwise (fun p q => ∀ a ∈ p.2.map (shiftSegment p.1),
      ∀ b ∈ q.2.map (shiftSegment q.1), a.start ≤ b.start) chunks := by
  refine ⟨fun O s e t => rfl, by simpa using collectGo_eq chunks [], ?_⟩
  have htrans : Transitive (fun p q : ℚ × List Segment => p.1 + C ≤ q.1) := by
    intro a b c hab hbc
    have hb : b.1 ≤ b.1 + C := le_add_of_nonneg_right hC
    linarith
  haveI : IsTrans (ℚ × List Segment) (fun p q => p.1 + C ≤ q.1) := ⟨htrans⟩
  have hpw : List.Pairwise (fun p q => p.1 + C ≤ q.1) chunks :=
    List.chain'_iff_pairwise.mp hasc
  refine hpw.imp_of_mem ?_
  intro p q hp hq hpq a ha b hb
  simp only [List.mem_map] at ha hb
  obtain ⟨sa, hsa, rfl⟩ := ha
  obtain ⟨sb, hsb, rfl⟩ := hb
  have hpa := hin p hp sa hsa
  have hqb := hin q hq sb hsb
  have h1 : sa.start ≤ C := le_trans hpa.2.1 hpa.2.2
  simp only [shiftSegment]
  linarith [hqb.1, hpq]

/-- Concrete input for the claim C3 witness: two chunks with offsets 0 and
2 and one raw segment each, chunk duration 2. -/
def chunksC3 : List (ℚ × List Segment) :=
  [((0 : ℚ), [{ start := 0, stop := 1, text := "a" }]),
   ((2 : ℚ), [{ start := 0, stop := 1, text := "b" }])]

/-- Witness for claim C3 at the concrete two-chunk input. -/
theorem offset_correction_sorted_witness :
    (∀ (O s e : ℚ) (t : String),
      shiftSegment O { start := s, stop := e, text := t } =
        { start := s + O, stop := e + O, text := t }) ∧
    collectSegments chunksC3 =
      (chunksC3.map (fun p => p.2.map (shiftSegment p.1))).flatten ∧
    List.Pairwise (fun p q => ∀ a ∈ p.2.map (shiftSegment p.1),
      ∀ b ∈ q.2.map (shiftSegment q.1), a.start ≤ b.start) chunksC3 :=
  offset_correction_sorted chunksC3 2 (by norm_num)
    (by norm_num [chunksC3, List.chain'_cons]) (by with_unfolding_all decide)

/-! ## Subtitle assembly, src/transcribe.py lines 157-165 -/

/-- Python str.strip() with no argument: remove leading and trailing
whitespace. -/
def strip (s : String) : String :=
  String.mk (((s.data.dropWhile Char.isWhitespace).reverse.dropWhile
    Char.isWhitespace).reverse)

/-- A subtitle entry as assembled by the loop on lines 159-163: 1-based
index, the two formatted timestamps and the stripped text. -/
structure SubtitleEntry where
  index : ℕ
  start : String
  stop : String
  text : String
deriving DecidableEq

/-- The structured view of the loop on lines 159-163: the element of
all_segments at position p.1 becomes the entry with index p.1 + 1
(enumerate with start=1). -/
def subtitleEntries (segs : List Segment) : List SubtitleEntry :=
  segs.enum.map (fun p =>
    { index := p.1 + 1
      start := format_timestamp p.2.start
      stop := format_timestamp p.2.stop
      text := strip p.2.text })

/-- Rendering of one entry, the f-string on line 163: index, newline, the
two timestamps separated by the arrow, newline, text, trailing newline. -/
def renderEntry (e : SubtitleEntry) : String :=
  Nat.repr e.index ++ "\n" ++ e.start ++ " --> " ++ e.stop ++ "\n" ++ e.text ++ "\n"

/-- srt_lines as built by the loop on lines 158-163. -/
def srt_lines (segs : List Segment) : List String :=
  segs.enum.map (fun p =>
    Nat.repr (p.1 + 1) ++ "\n" ++ format_timestamp p.2.start ++ " --> " ++
      format_timestamp p.2.stop ++ "\n" ++ strip p.2.text ++ "\n")

/-- srt_content, line 165: the blocks joined by a newline. -/
def srt_content (segs : List Segment) : String :=
  String.intercalate "\n" (srt_lines segs)

/-- Claim C6: the two-segment example serializes to exactly the two
canonical SRT blocks, separated by a blank line. -/
theorem round_trip_srt_content :
    srt_content [{ start := 0, stop := 2, text := "Ciao" },
        { start := 2, stop := 5, text := "come stai" }] =
      "1\n00:00:00,000 --> 00:00:02,000\nCiao\n\n2\n00:00:02,000 --> 00:00:05,000\ncome stai\n" := by
  with_unfolding_all decide

lemma enum_map_snd_comp {α β : Type _} (l : List α) (g : α → β) :
    l.enum.map (fun p => g p.2) = l.map g := by
  have h1 : l.enum.map (fun p => g p.2) = (l.enum.map Prod.snd).map g := by
    rw [List.map_map]
    rfl
  rw [h1, List.enum_map_snd]

/-- Claim C7: for every non-empty segment list the emitted entries are in
1:1 correspondence with the segments in order, each text is the stripped
segment text, the timestamps are the formatted segment times, the indices
are the contiguous sequence 1, ..., n, and the rendered lines are exactly
the rendered entries. -/
theorem subtitle_entries_contiguous (segs : List Segment) (_hne : segs ≠ []) :
    (subtitleEntries segs).length = segs.length ∧
    (subtitleEntries segs).map SubtitleEntry.index = List.range' 1 segs.length ∧
    (subtitleEntries segs).map SubtitleEntry.text = segs.map (fun s => strip s.text) ∧
    (subtitleEntries segs).map SubtitleEntry.start =
      segs.map (fun s => format_timestamp s.start) ∧
    (subtitleEntries segs).map SubtitleEntry.stop =
      segs.map (fun s => format_timestamp s.stop) ∧
    srt_lines segs = (subtitleEntries segs).map renderEntry := by
  refine ⟨by simp [subtitleEntries], ?_, ?_, ?_, ?_, ?_⟩
  · rw [subtitleEntries, List.map_map]
    have h1 : (SubtitleEntry.index ∘ fun p : ℕ × Segment =>
        ({ index := p.1 + 1, start := format_timestamp p.2.start,
           stop := format_timestamp p.2.stop, text := strip p.2.text } : SubtitleEntry)) =
        (fun p : ℕ × Segment => p.1 + 1) := rfl
    rw [h1]
    have h2 : (fun p : ℕ × Segment => p.1 + 1) =
        ((fun i => i + 1) ∘ Prod.fst) := rfl
    rw [h2, ← List.map_map, List.enum_map_fst, List.range'_eq_map_range]
    exact List.map_congr_left (fun i _ => Nat.add_comm i 1)
  · rw [subtitleEntries, List.map_map]
    exact enum_map_snd_comp segs (fun s => strip s.text)
  · rw [subtitleEntries, List.map_map]
    exact enum_map_snd_comp segs (fun s => format_timestamp s.start)
  · rw [subtitleEntries, List.map_map]
    exact enum_map_snd_comp segs (fun s => format_timestamp s.stop)
  · rw [srt_lines, subtitleEntries, List.map_map]
    rfl

/-- Concrete input for the claim C7 witness: one segment with padded text. -/
def segsC7 : List Segment := [{ start := 0, stop := 1, text := " hi " }]

/-- Witness for claim C7 at the one-segment input. -/
theorem subtitle_entries_contiguous_witness :
    (subtitleEntries segsC7).length = segsC7.length ∧
    (subtitleEntries segsC7).map SubtitleEntry.index = List.range' 1 segsC7.length ∧
    (subtitleEntries segsC7).map SubtitleEntry.text = segsC7.map (fun s => strip s.text) ∧
    (subtitleEntries segsC7).map SubtitleEntry.start =
      segsC7.map (fun s => format_timestamp s.start) ∧
    (subtitleEntries segsC7).map SubtitleEntry.stop =
      segsC7.map (fun s => format_timestamp s.stop) ∧
    srt_lines segsC7 = (subtitleEntries segsC7).map renderEntry :=
  subtitle_entries_contiguous segsC7 (by with_unfolding_all decide)

/-! ## The pipeline transcribe_to_srt, src/transcribe.py lines 101-179 -/

/-- The 24 MB upload threshold, line 18. -/
def MAX_FILE_SIZE : ℕ := 24 * 1024 * 1024

/-- The audio container extension set, line 19. -/
def AUDIO_EXTENSIONS : List String :=
  [".mp3", ".wav", ".flac", ".ogg", ".m4a", ".aac", ".wma", ".opus"]

/-- Fatal outcomes of one run: the up-front missing-tool exit (line 113),
an ffmpeg or ffprobe subprocess failure (CalledProcessError, check=True),
a zero probed duration (ZeroDivisionError on line 136), a transcription
service failure, and the empty-result exit (line 155). -/
inductive Fatal where
  | toolMissing
  | processError
  | arithmeticError
  | serviceError
  | emptyResult
deriving DecidableEq

/-- Process exit status of each fatal outcome: sys.exit(1) for the missing
tools check and the empty result, and the interpreter status 1 for an
uncaught CalledProcessError, ZeroDivisionError or service exception. -/
def exitCode : Fatal → ℕ
  | Fatal.toolMissing => 1
  | Fatal.processError => 1
  | Fatal.arithmeticError => 1
  | Fatal.serviceError => 1
  | Fatal.emptyResult => 1

/-- Oracles for the external world of one run: availability of the two
required tools, the lowercased input extension and extensionless base path,
the outcome of the audio extraction, the size of the normalized audio, the
probed duration (none models an ffprobe failure), the per-chunk encode
outcomes, and the transcription results for the whole file and for each
chunk (none models a service failure). -/
structure Env where
  ffmpegAvailable : Bool
  ffprobeAvailable : Bool
  inputBase : String
  inputExt : String
  extractOk : Bool
  audioSize : ℕ
  probe : Option ℚ
  encodeOk : ℕ → Bool
  transcribeWhole : Option (List Segment)
  transcribeChunk : ℕ → Option (List Segment)

/-- The filesystem state the claims are about: whether the scratch
directory exists, the scratch entries inside it, and the output subtitle
file (path and content) if one has been written. -/
structure FS where
  tmpdirExists : Bool
  scratchFiles : List String
  outputFile : Option (String × String)
deriving DecidableEq

/-- The chunk transcription loop, lines 144-151: transcribe each chunk in
order (a service failure raises), shift its raw segments by the chunk
offset and extend all_segments. -/
def transcribeChunksGo (tr : ℕ → Option (List Segment)) :
    List (String × ℤ) → ℕ → List Segment → Except Fatal (List Segment)
  | [], _, acc => Except.ok acc
  | (_, off) :: rest, i, acc =>
    match tr i with
    | none => Except.error Fatal.serviceError
    | some segs =>
      transcribeChunksGo tr rest (i + 1) (acc ++ segs.map (shiftSegment (off : ℚ)))

/-- The chunk duration estimate of lines 136-137:
int(MAX_FILE_SIZE / (audio_size / total_duration)). -/
def chunkDurationOf (audioSize : ℕ) (D : ℚ) : ℤ :=
  pyInt ((MAX_FILE_SIZE : ℚ) / ((audioSize : ℚ) / D))

/-- Step 2 of the try block (lines 129-151), from an existing audio file:
transcribe directly when the size is within the limit, otherwise probe the
duration (a 0 duration raises ZeroDivisionError computing bytes_per_second),
make the chunks directory, split, and transcribe chunk by chunk.  On the
split error path the partially written chunk files are not tracked
individually; the cleanup claims only need that everything recorded lives
inside the scratch directory. -/
def gatherFromAudio (env : Env) (fuel : ℕ) (fs : FS) :
    Option (Except Fatal (List Segment) × FS) :=
  if env.audioSize ≤ MAX_FILE_SIZE then
    match env.transcribeWhole with
    | none => some (Except.error Fatal.serviceError, fs)
    | some segs => some (Except.ok segs, fs)
  else
    match env.probe with
    | none => some (Except.error Fatal.processError, fs)
    | some D =>
      if D = 0 then some (Except.error Fatal.arithmeticError, fs)
      else
        match split_audio env.encodeOk D (chunkDurationOf env.audioSize D) fuel with
        | none => none
        | some (Except.error _) =>
          some (Except.error Fatal.processError,
            { fs with scratchFiles := fs.scratchFiles ++ ["chunks"] })
        | some (Except.ok chunks) =>
          match transcribeChunksGo env.transcribeChunk chunks 0 [] with
          | Except.error f =>
            some (Except.error f,
              { fs with scratchFiles :=
                  fs.scratchFiles ++ ["chunks"] ++ chunks.map Prod.fst })
          | Except.ok segs =>
            some (Except.ok segs,
              { fs with scratchFiles :=
                  fs.scratchFiles ++ ["chunks"] ++ chunks.map Prod.fst })

/-- Step 1 (lines 120-127) followed by step 2: when the input extension is
not in the audio set, the extracted audio.mp3 is written into the scratch
directory first (an extraction failure raises CalledProcessError). -/
def gatherSegments (env : Env) (fuel : ℕ) (fs : FS) :
    Option (Except Fatal (List Segment) × FS) :=
  if env.inputExt ∈ AUDIO_EXTENSIONS then
    gatherFromAudio env fuel fs
  else if env.extractOk then
    gatherFromAudio env fuel { fs with scratchFiles := fs.scratchFiles ++ ["audio.mp3"] }
  else
    some (Except.error Fatal.processError, fs)

/-- Steps 3-4 (lines 153-176): the empty-result check and exit, the SRT
serialization, the default output path rule and the write. -/
def assembleWrite (env : Env) (output_path : Option String) (segs : List Segment)
    (fs : FS) : Except Fatal String × FS :=
  if segs = [] then (Except.error Fatal.emptyResult, fs)
  else
    let path := output_path.getD (env.inputBase ++ ".srt")
    (Except.ok path, { fs with outputFile := some (path, srt_content segs) })

/-- The try block, lines 118-176. -/
def tryBody (env : Env) (output_path : Option String) (fuel : ℕ) (fs : FS) :
    Option (Except Fatal String × FS) :=
  match gatherSegments env fuel fs with
  | none => none
  | some (Except.error f, fs1) => some (Except.error f, fs1)
  | some (Except.ok segs, fs1) => some (assembleWrite env output_path segs fs1)

/-- The initial filesystem state of a run: no scratch directory, no scratch
files, and whatever the output path currently holds. -/
def initFS (o : Option (String × String)) : FS :=
  { tmpdirExists := false, scratchFiles := [], outputFile := o }

/-- transcribe_to_srt, lines 101-179: the up-front tool check exits before
any scratch state is created; then tempfile.mkdtemp, the try block, and the
finally block (line 179) which removes the scratch directory with all its
contents on every path leaving the try block - including sys.exit, which
raises SystemExit through the finally. -/
def transcribe_to_srt (env : Env) (output_path : Option String) (fuel : ℕ)
    (o : Option (String × String)) : Option (Except Fatal String × FS) :=
  if !env.ffmpegAvailable || !env.ffprobeAvailable then
    some (Except.error Fatal.toolMissing, initFS o)
  else
    match tryBody env output_path fuel { initFS o with tmpdirExists := true } with
    | none => none
    | some (r, fs) => some (r, { fs with tmpdirExists := false, scratchFiles := [] })

/-- Claim C8: whenever a run terminates - with a success or any fatal
outcome - the final filesystem state has no scratch directory and no
scratch files: the finally block removes them on every exit path (and the
missing-tool exit happens before the scratch directory is ever created). -/
theorem scratch_cleanup_all_paths (env : Env) (output_path : Option String)
    (fuel : ℕ) (o : Option (String × String)) (r : Except Fatal String) (fs : FS)
    (h : transcribe_to_srt env output_path fuel o = some (r, fs)) :
    fs.tmpdirExists = false ∧ fs.scratchFiles = [] := by
  unfold transcribe_to_srt at h
  split at h
  · simp only [Option.some.injEq, Prod.mk.injEq] at h
    obtain ⟨-, h2⟩ := h
    subst h2
    exact ⟨rfl, rfl⟩
  · split at h
    · exact absurd h (by simp)
    · simp only [Option.some.injEq, Prod.mk.injEq] at h
      obtain ⟨-, h2⟩ := h
      subst h2
      exact ⟨rfl, rfl⟩

/-- Environment for the claim C8 witness: a successful direct-transcription
run on an audio input. -/
def envC8 : Env :=
  { ffmpegAvailable := true, ffprobeAvailable := true, inputBase := "clip",
    inputExt := ".mp3", extractOk := true, audioSize := 0, probe := none,
    encodeOk := fun _ => true,
    transcribeWhole := some [{ start := 0, stop := 2, text := "Ciao" }],
    transcribeChunk := fun _ => none }

/-- Witness for claim C8 on a successful run of the concrete environment. -/
theorem scratch_cleanup_all_paths_witness :
    ({ tmpdirExists := false, scratchFiles := [],
        outputFile := some ("clip.srt",
          srt_content [{ start := 0, stop := 2, text := "Ciao" }]) } : FS).tmpdirExists
        = false ∧
    ({ tmpdirExists := false, scratchFiles := [],
        outputFile := some ("clip.srt",
          srt_content [{ start := 0, stop := 2, text := "Ciao" }]) } : FS).scratchFiles
        = [] :=
  scratch_cleanup_all_paths envC8 none 1 none (Except.ok "clip.srt")
    { tmpdirExists := false, scratchFiles := [],
      outputFile := some ("clip.srt",
        srt_content [{ start := 0, stop := 2, text := "Ciao" }]) }
    (by rfl)

lemma gatherFromAudio_outputFile (env : Env) (fuel : ℕ) (fs : FS)
    (r : Except Fatal (List Segment)) (fs1 : FS)
    (h : gatherFromAudio env fuel fs = some (r, fs1)) :
    fs1.outputFile = fs.outputFile := by
  unfold gatherFromAudio at h
  repeat' split at h
  all_goals try exact Option.noConfusion h
  all_goals
    simp only [Option.some.injEq, Prod.mk.injEq] at h
  all_goals
    obtain ⟨-, h2⟩ := h
  all_goals subst h2
  all_goals rfl

lemma gatherSegments_outputFile (env : Env) (fuel : ℕ) (fs : FS)
    (r : Except Fatal (List Segment)) (fs1 : FS)
    (h : gatherSegments env fuel fs = some (r, fs1)) :
    fs1.outputFile = fs.outputFile := by
  unfold gatherSegments at h
  split at h
  · exact gatherFromAudio_outputFile env fuel _ r fs1 h
  · split at h
    · exact gatherFromAudio_outputFile env fuel
        { fs with scratchFiles := fs.scratchFiles ++ ["audio.mp3"] } r fs1 h
    · simp only [Option.some.injEq, Prod.mk.injEq] at h
      obtain ⟨-, h2⟩ := h
      subst h2
      rfl

/-- Claim C4: when the accumulated transcription segment list is empty, the
run terminates through sys.exit(1) - a nonzero exit status - and no output
subtitle file is written: the output file state is exactly what it was
before the run (while the finally block still removes the scratch
directory). -/
theorem empty_result_exits_nonzero (env : Env) (output_path : Option String)
    (fuel : ℕ) (o : Option (String × String)) (fs1 : FS)
    (htools : env.ffmpegAvailable = true ∧ env.ffprobeAvailable = true)
    (hempty : gatherSegments env fuel { initFS o with tmpdirExists := true } =
      some (Except.ok [], fs1)) :
    transcribe_to_srt env output_path fuel o =
      some (Except.error Fatal.emptyResult,
        { fs1 with tmpdirExists := false, scratchFiles := [] }) ∧
    ({ fs1 with tmpdirExists := false, scratchFiles := [] } : FS).outputFile = o ∧
    exitCode Fatal.emptyResult ≠ 0 := by
  obtain ⟨hf, hp⟩ := htools
  have hout := gatherSegments_outputFile env fuel _ _ _ hempty
  refine ⟨?_, ?_, by simp [exitCode]⟩
  · unfold transcribe_to_srt tryBody
    rw [hf, hp, hempty]
    rfl
  · show fs1.outputFile = o
    rw [hout]
    rfl

/-- Environment for the claim C4 witness: a direct transcription returning
zero segments. -/
def envC4 : Env :=
  { ffmpegAvailable := true, ffprobeAvailable := true, inputBase := "clip",
    inputExt := ".mp3", extractOk := true, audioSize := 0, probe := none,
    encodeOk := fun _ => true, transcribeWhole := some [],
    transcribeChunk := fun _ => none }

/-- Witness for claim C4: the zero-segment run exits with emptyResult and
leaves the output file unwritten. -/
theorem empty_result_exits_nonzero_witness :
    transcribe_to_srt envC4 none 1 none =
      some (Except.error Fatal.emptyResult, initFS none) ∧
    (initFS none : FS).outputFile = none ∧
    exitCode Fatal.emptyResult ≠ 0 :=
  empty_result_exits_nonzero envC4 none 1 none
    { tmpdirExists := true, scratchFiles := [], outputFile := none }
    ⟨rfl, rfl⟩ (by rfl)

/-- Claim C5, counterexample: for a 72 MB file of 10 s duration the exact
quotient size_limit / (file_size / total_duration) is 10/3, not an integer,
while the code passes int(10/3) = 3 to the splitter; the chunk duration is
not equal to the quoted exact formula. -/
theorem chunk_duration_not_exact :
    ((chunkDurationOf 75497472 10 : ℤ) : ℚ) ≠
      (MAX_FILE_SIZE : ℚ) / (((75497472 : ℕ) : ℚ) / 10) := by
  with_unfolding_all decide

/-- Claim C5, amended: the chunk duration passed to the splitter is the
integer truncation (the floor, the quotient being positive) of
size_limit / (file_size / total_duration); it is the largest integer
duration whose estimated encoded size, assuming constant bitrate
file_size / total_duration, stays at or under the size limit. -/
theorem chunk_duration_truncated (size : ℕ) (D : ℚ)
    (hsize : MAX_FILE_SIZE < size) (hD : 0 < D) :
    chunkDurationOf size D = ⌊(MAX_FILE_SIZE : ℚ) / ((size : ℚ) / D)⌋ ∧
    ((chunkDurationOf size D : ℤ) : ℚ) * ((size : ℚ) / D) ≤ (MAX_FILE_SIZE : ℚ) ∧
    (MAX_FILE_SIZE : ℚ) < (((chunkDurationOf size D : ℤ) : ℚ) + 1) * ((size : ℚ) / D) := by
  have hsz : (0 : ℚ) < (size : ℚ) := by
    exact_mod_cast lt_of_le_of_lt (Nat.zero_le _) hsize
  have hbps : (0 : ℚ) < (size : ℚ) / D := div_pos hsz hD
  have hmax : (0 : ℚ) ≤ (MAX_FILE_SIZE : ℚ) := by positivity
  have hx : (0 : ℚ) ≤ (MAX_FILE_SIZE : ℚ) / ((size : ℚ) / D) :=
    div_nonneg hmax (le_of_lt hbps)
  have h1 : chunkDurationOf size D = ⌊(MAX_FILE_SIZE : ℚ) / ((size : ℚ) / D)⌋ := by
    unfold chunkDurationOf pyInt
    rw [if_neg (not_lt.mpr hx)]
  refine ⟨h1, ?_, ?_⟩
  · rw [h1]
    calc ((⌊(MAX_FILE_SIZE : ℚ) / ((size : ℚ) / D)⌋ : ℤ) : ℚ) * ((size : ℚ) / D)
        ≤ ((MAX_FILE_SIZE : ℚ) / ((size : ℚ) / D)) * ((size : ℚ) / D) :=
          mul_le_mul_of_nonneg_right (Int.floor_le _) (le_of_lt hbps)
      _ = (MAX_FILE_SIZE : ℚ) := div_mul_cancel₀ _ (ne_of_gt hbps)
  · rw [h1]
    calc (MAX_FILE_SIZE : ℚ)
        = ((MAX_FILE_SIZE : ℚ) / ((size : ℚ) / D)) * ((size : ℚ) / D) :=
          (div_mul_cancel₀ _ (ne_of_gt hbps)).symm
      _ < (((⌊(MAX_FILE_SIZE : ℚ) / ((size : ℚ) / D)⌋ : ℤ) : ℚ) + 1) * ((size : ℚ) / D) :=
          mul_lt_mul_of_pos_right (Int.lt_floor_add_one _) hbps

/-- Witness for the amended claim C5 at the 72 MB, 10 s input. -/
theorem chunk_duration_truncated_witness :
    chunkDurationOf 75497472 10 =
      ⌊(MAX_FILE_SIZE : ℚ) / (((75497472 : ℕ) : ℚ) / 10)⌋ ∧
    ((chunkDurationOf 75497472 10 : ℤ) : ℚ) * (((75497472 : ℕ) : ℚ) / 10) ≤
      (MAX_FILE_SIZE : ℚ) ∧
    (MAX_FILE_SIZE : ℚ) <
      (((chunkDurationOf 75497472 10 : ℤ) : ℚ) + 1) * (((75497472 : ℕ) : ℚ) / 10) :=
  chunk_duration_truncated 75497472 10 (by norm_num [MAX_FILE_SIZE]) (by norm_num)

end VideoToSrt
